import Mathlib

set_option maxRecDepth 100000

/-!
A shallow embedding of the slotted-page storage core (`HW1/SlottedPage.py`):
the `SlottedPageHeader` class (slot bitmap, used/free slot bookkeeping,
capacity arithmetic, pack/unpack) and the `SlottedPage` class (get / put /
insert / clear / delete / iterate over fixed-size tuples in a single byte
buffer).

Modelling conventions:
* byte buffers are `List ℕ` (each entry one byte value);
* Python operations that can raise are `Except String`; the string names the
  Python exception raised on that path;
* operations that return `None` for a not-found condition return `none`
  inside `.ok`;
* in-place mutation becomes explicit state passing: a mutating page operation
  returns the updated `SPage`;
* Python ints are `ℕ`/`ℤ`; the struct format "cHHHH" is modelled with its
  CPython size and layout on the usual x86-64 platform: one flag byte, one
  alignment padding byte, then four little-endian unsigned 16-bit fields
  (total 10 bytes), each field checked to fit in 0..65535 when packing.
-/

deriving instance DecidableEq for Except

/-- Python `range(a, b)` as a list (empty when `b ≤ a`). -/
def pyRange (a b : ℕ) : List ℕ := List.range' a (b - a)

/-- Read of a memoryview slice `buffer[start:stop]`; Python clamps both ends
to the buffer, never raising. -/
def readSlice (buf : List ℕ) (start stop : ℕ) : List ℕ :=
  (buf.take stop).drop start

/-- Assignment `buffer[start:stop] = data` on a memoryview: Python requires
the (clamped) slice length to equal the data length and raises `ValueError`
otherwise.  All call sites in the source use `start ≤ stop`. -/
def writeSlice (buf : List ℕ) (start stop : ℕ) (data : List ℕ) :
    Except String (List ℕ) :=
  if min stop buf.length - min start buf.length = data.length then
    .ok (buf.take start ++ data ++ buf.drop (start + data.length))
  else
    .error "ValueError: memoryview assignment: lvalue and rvalue have different structures"

/-- Extract the value of a successful `Except`, defaulting on error; used
only to name concrete values in closed statements. -/
def exOk {α : Type} [Inhabited α] : Except String α → α
  | .ok a => a
  | .error _ => default

/-- Test for a successful `Except`. -/
def isOkE {α : Type} : Except String α → Bool
  | .ok _ => true
  | .error _ => false

/-- `SlottedPageHeader.binrepr = struct.Struct("cHHHH")`: with CPython native
alignment this is 1 (char) + 1 (padding) + 4·2 (unsigned shorts) = 10 bytes,
so `reprSize = 10`. -/
def reprSize : ℕ := 10

/-- `headerSize() = reprSize + math.ceil(numSlots/8)`. -/
def headerSizeOf (numSlots : ℕ) : ℕ := reprSize + (numSlots + 7) / 8

/-- `numSlots = math.floor((pageCapacity - reprSize/(tupleSize+0.125)))`
(line 101 of the source; note the parenthesis placement: the division applies
to `reprSize` alone).  The float expression equals the exact rational
`pageCapacity - 10/(tupleSize + 1/8) = pageCapacity - 80/(8·tupleSize + 1)`
whose floor we compute with integer floor division; `numSlotsInit_eq_floor`
below proves the two agree.  The IEEE-double evaluation agrees with the exact
rational floor on the whole struct-packable domain, because `80/(8·ts+1)` is
never an integer and its distance to the nearest integer is at least
`1/(8·ts+1) ≥ 2·10⁻⁶`, far above the double rounding error of the
subexpressions (≈10⁻¹¹ at these magnitudes). -/
def numSlotsInit (pc : ℕ) (ts : ℤ) : ℤ :=
  if 0 ≤ ts then (pc : ℤ) + (-80) / (8 * ts + 1)
  else (pc : ℤ) + 80 / (-(8 * ts + 1))

/-- The spec formula for the slot count, written from the spec text
(`numSlots = floor((pageCapacity − fixedPrefixSize) / (tupleSize + 1/8))`),
for comparison with the source computation `numSlotsInit`. -/
def specNumSlots (pc : ℕ) (ts : ℕ) : ℤ :=
  ⌊((pc : ℚ) - reprSize) / ((ts : ℚ) + 1/8)⌋

/-- State of a `SlottedPageHeader`: flag byte, tuple size, page capacity,
slot count, next free slot, the bitmap list (`slotBuffer`), and the used /
free slot index lists. -/
structure SPHeader where
  flags : ℕ
  tupleSize : ℕ
  pageCapacity : ℕ
  numSlots : ℕ
  nextSlot : ℕ
  slotBuffer : List ℕ
  usedSlots : List ℕ
  freeSlots : List ℕ
deriving Repr, DecidableEq, Inhabited

/-- `headerSize()` on a header value. -/
def SPHeader.headerSize (h : SPHeader) : ℕ := headerSizeOf h.numSlots

/-- Modelled from the spec: `Storage.Page.PageHeader.dirtyMask` lives in
`Storage/Page.py`, which is not part of the sources; per the spec the dirty
flag is bit 0 of the one-byte flags field, and the source itself repeats
`dirtyMask = 0b1`. -/
def dirtyMask : ℕ := 1

/-- `flag(mask)`: `(ord(self.flags) & mask) > 0`. -/
def SPHeader.isDirty (h : SPHeader) : Bool := (h.flags &&& dirtyMask) ≠ 0

/-- `setFlag(mask, True)` with the dirty mask: `flags |= mask`. -/
def SPHeader.setDirtyTrue (h : SPHeader) : SPHeader :=
  { h with flags := h.flags ||| dirtyMask }

/-- `usedSpace() = len(usedSlots) * tupleSize`. -/
def SPHeader.usedSpace (h : SPHeader) : ℕ := h.usedSlots.length * h.tupleSize

/-- `numTuples() = int(usedSpace() / tupleSize)`. -/
def SPHeader.numTuples (h : SPHeader) : ℕ := h.usedSpace / h.tupleSize

/-- `freeSpace() = pageCapacity - headerSize() - len(usedSlots)*tupleSize`
(may be negative, hence `ℤ`). -/
def SPHeader.freeSpace (h : SPHeader) : ℤ :=
  (h.pageCapacity : ℤ) - (h.headerSize : ℤ) - (h.usedSlots.length : ℤ) * (h.tupleSize : ℤ)

/-- `hasFreeTuple() = freeSpace() >= tupleSize`. -/
def SPHeader.hasFreeTuple (h : SPHeader) : Bool :=
  decide ((h.tupleSize : ℤ) ≤ h.freeSpace)

/-- `hasSlot(slotIndex)`: membership in `usedSlots`. -/
def SPHeader.hasSlot (h : SPHeader) (slotIndex : ℕ) : Bool :=
  h.usedSlots.contains slotIndex

/-- `slotOffset(slotIndex) = slotIndex * tupleSize + headerSize()`. -/
def SPHeader.slotOffset (h : SPHeader) (slotIndex : ℕ) : ℕ :=
  slotIndex * h.tupleSize + h.headerSize

/-- `nextFreeTuple()`: when `hasFreeTuple()`, sets bitmap bit `nextSlot`,
pops the front of `freeSlots`, appends `nextSlot` to `usedSlots`, advances
`nextSlot` to the new front of `freeSlots`, and returns the allocated index;
otherwise returns `None`.  The three list accesses raise `IndexError` when
out of range / empty, exactly as in Python. -/
def SPHeader.nextFreeTuple (h : SPHeader) : Except String (Option (SPHeader × ℕ)) :=
  if h.hasFreeTuple then
    let temp := h.nextSlot
    if temp < h.slotBuffer.length then
      let sb := h.slotBuffer.set temp 1
      match h.freeSlots with
      | [] => .error "IndexError: pop from empty list"
      | _ :: rest =>
        let used := h.usedSlots ++ [h.nextSlot]
        match rest with
        | [] => .error "IndexError: list index out of range"
        | r0 :: _ =>
          .ok (some ({ h with slotBuffer := sb, usedSlots := used,
                              freeSlots := rest, nextSlot := r0 }, temp))
    else .error "IndexError: list assignment index out of range"
  else .ok none

/-- The fixed-width numeric part of `pack()`: `struct.pack("cHHHH", flags,
tupleSize, pageCapacity, numSlots, nextSlot)` — the flag byte, the alignment
padding byte, then the four fields in little-endian order.  Callers
(`initHeader`) check the 16-bit ranges before packing, mirroring the
`struct.error` CPython raises. -/
def SPHeader.packScalars (h : SPHeader) : List ℕ :=
  [h.flags, 0,
   h.tupleSize % 256, h.tupleSize / 256,
   h.pageCapacity % 256, h.pageCapacity / 256,
   h.numSlots % 256, h.numSlots / 256,
   h.nextSlot % 256, h.nextSlot / 256]

/-- The bitmap part of `pack()`, a direct transliteration of the source loop:
state is (emitted bytes, current byte accumulator `byteSlot`, current bit
position `bitmove`); a byte is emitted at each 8-slot boundary and after the
last slot.  `getD` models Python list indexing; every pack in the source
happens with `len(slotBuffer) = numSlots`, so the default is never taken on
those states. -/
def packBitmapStep (slotBuffer : List ℕ) (numSlots : ℕ)
    (st : List ℕ × ℕ × ℕ) (i : ℕ) : List ℕ × ℕ × ℕ :=
  let st2 : List ℕ × ℕ × ℕ :=
    if i = 0 then (st.1, slotBuffer.getD 0 0, st.2.2)
    else if i % 8 = 0 then (st.1 ++ [st.2.1], slotBuffer.getD i 0, 0)
    else (st.1, st.2.1 ||| (slotBuffer.getD i 0 <<< (st.2.2 + 1)), st.2.2 + 1)
  if i = numSlots - 1 then (st2.1 ++ [st2.2.1], st2.2.1, st2.2.2) else st2

def SPHeader.packBitmap (h : SPHeader) : List ℕ :=
  ((List.range h.numSlots).foldl (packBitmapStep h.slotBuffer h.numSlots) ([], 0, 0)).1

/-- `pack()`: the numeric header followed by the packed bitmap. -/
def SPHeader.packHeader (h : SPHeader) : List ℕ :=
  h.packScalars ++ h.packBitmap

/-- `SlottedPageHeader.__init__(buffer=buf, tupleSize=ts, flags=flags)` with
`pageCapacity` defaulting to `len(buffer)` as at every call site.  Returns
the header together with the mutated buffer (the constructor writes
`pack()` into `buffer[0:headerSize()]`).  Failure paths, in source order:
empty buffer → `ValueError`; a `cHHHH` field out of 16-bit range →
`struct.error` (raised by `self.pack()` on line 114 before the slice
assignment); slice/data length mismatch → `ValueError`. -/
def mkInitHeader (bufLen : ℕ) (tupleSize : ℤ) (flags : ℕ) : SPHeader :=
  { flags := flags, tupleSize := tupleSize.toNat, pageCapacity := bufLen,
    numSlots := (numSlotsInit bufLen tupleSize).toNat, nextSlot := 0,
    slotBuffer := List.replicate (numSlotsInit bufLen tupleSize).toNat 0,
    usedSlots := [], freeSlots := pyRange 0 (numSlotsInit bufLen tupleSize).toNat }

def initHeader (buf : List ℕ) (tupleSize : ℤ) (flags : ℕ) :
    Except String (SPHeader × List ℕ) :=
  if buf.length = 0 then
    .error "ValueError: No backing buffer supplied for SlottedPageHeader"
  else
    let ns : ℤ := numSlotsInit buf.length tupleSize
    let h : SPHeader := mkInitHeader buf.length tupleSize flags
    if tupleSize < 0 ∨ 65535 < tupleSize ∨ 65535 < (buf.length : ℤ) ∨
        ns < 0 ∨ 65535 < ns then
      .error "struct.error: argument out of range"
    else
      match writeSlice buf 0 (headerSizeOf ns.toNat) h.packHeader with
      | .ok buf2 => .ok (h, buf2)
      | .error e => .error e

/-- The bitmap-reconstruction loop of `unpack`: for each `i < numSlots`, at
each byte boundary reload `temp = buffer[int(i/8 + 9)]`, then assign
`slotBuffer[i] = temp & 1` and shift `temp >>= 1`.  Both indexings raise
`IndexError` when out of range. -/
def bitmapStep (buffer : List ℕ) (st : List ℕ × ℕ) (i : ℕ) :
    Except String (List ℕ × ℕ) :=
  let tempO : Option ℕ := if i % 8 = 0 then buffer[i / 8 + 9]? else some st.2
  match tempO with
  | none => .error "IndexError: index out of range"
  | some temp =>
    if i < st.1.length then
      .ok (st.1.set i (temp &&& 1), temp >>> 1)
    else .error "IndexError: list assignment index out of range"

def bitmapLoop (buffer : List ℕ) (numSlots : ℕ) (sb : List ℕ) :
    Except String (List ℕ × ℕ) :=
  (pyRange 0 numSlots).foldlM (bitmapStep buffer) (sb, 0)

/-- `SlottedPageHeader.unpack(buffer)`: read the `cHHHH` prefix, call the
constructor over (a copy of) the buffer with the read flags and tupleSize
(so `pageCapacity` becomes `len(buffer)` and `freeSlots` is pre-filled),
overwrite `numSlots` and `nextSlot` with the read values, rebuild the bitmap
via `bitmapLoop`, and append the bitmap-derived free/used indices onto the
constructor-initialised lists. -/
def SPHeader.unpack (buffer : List ℕ) : Except String SPHeader :=
  if buffer.length < reprSize then
    .error "struct.error: unpack_from requires a buffer of at least 10 bytes"
  else
    let flags := buffer.getD 0 0
    let tupleSize := buffer.getD 2 0 + 256 * buffer.getD 3 0
    let _pageCapacity := buffer.getD 4 0 + 256 * buffer.getD 5 0
    let numSlots := buffer.getD 6 0 + 256 * buffer.getD 7 0
    let nextSlot := buffer.getD 8 0 + 256 * buffer.getD 9 0
    match initHeader buffer (tupleSize : ℤ) flags with
    | .error e => .error e
    | .ok (h0, _) =>
      let h1 : SPHeader := { h0 with numSlots := numSlots, nextSlot := nextSlot }
      match bitmapLoop buffer numSlots h1.slotBuffer with
      | .error e => .error e
      | .ok (sb, _) =>
        let used2 := h1.usedSlots ++ (pyRange 0 numSlots).filter (fun i => sb.getD i 0 = 1)
        let free2 := h1.freeSlots ++ (pyRange 0 numSlots).filter (fun i => sb.getD i 0 = 0)
        .ok { h1 with slotBuffer := sb, usedSlots := used2, freeSlots := free2 }

/-- A tuple identifier `(pageId, tupleIndex)`; the page operations only ever
read `tupleIndex`, as in the source. -/
structure TupleId where
  pageId : ℕ
  tupleIndex : ℕ
deriving Repr, DecidableEq, Inhabited

/-- State of a `SlottedPage`: its identifier, header, and byte buffer. -/
structure SPage where
  pageId : ℕ
  header : SPHeader
  buf : List ℕ
deriving Repr, DecidableEq, Inhabited

/-- Modelled from the spec: `Storage.Page.Page.setDirty` is not under the
sources; per the spec it sets the dirty bit of the owned header flags. -/
def SPage.setDirtyTrue (p : SPage) : SPage :=
  { p with header := p.header.setDirtyTrue }

/-- `SlottedPage.__init__(pageId=pid, buffer=buf, schema=...)` with the
header freshly initialised from the schema size (`initializeHeader`).
The header constructor writes its packed form into the page buffer. -/
def initPage (pid : ℕ) (buf : List ℕ) (schemaSize : ℤ) : Except String SPage :=
  if buf.length = 0 then
    .error "ValueError: No backing buffer provided to page constructor."
  else
    match initHeader buf schemaSize 0 with
    | .error e => .error e
    | .ok (h, buf2) => .ok { pageId := pid, header := h, buf := buf2 }

/-- `getTuple(tupleId)`: the slot's byte span if occupied, else `None`. -/
def SPage.getTuple (p : SPage) (t : TupleId) : Option (List ℕ) :=
  let tupleIndex := t.tupleIndex
  if p.header.hasSlot tupleIndex then
    let start := tupleIndex * p.header.tupleSize + p.header.headerSize
    some (readSlice p.buf start (start + p.header.tupleSize))
  else none

/-- `putTuple(tupleId, tupleData)`: overwrite the slot span and mark dirty
if occupied, else `None` with no state change. -/
def SPage.putTuple (p : SPage) (t : TupleId) (tupleData : List ℕ) :
    Except String (Option SPage) :=
  let tupleIndex := t.tupleIndex
  if p.header.hasSlot tupleIndex then
    let start := tupleIndex * p.header.tupleSize + p.header.headerSize
    let stop := start + p.header.tupleSize
    match writeSlice p.buf start stop tupleData with
    | .ok buf2 => .ok (some (({ p with buf := buf2 } : SPage).setDirtyTrue))
    | .error e => .error e
  else .ok none

/-- `insertTuple(tupleData)`: when the header has a free tuple, allocate via
`nextTupleRange` (i.e. `nextFreeTuple` plus the slot's byte range), write
the data, mark dirty and return the new `TupleId`; else return `None`.
The `none` arm of the allocation is unreachable (the guard was just
checked); Python would raise a `TypeError` in `slotOffset(None)` there. -/
def SPage.insertTuple (p : SPage) (tupleData : List ℕ) :
    Except String (Option (SPage × TupleId)) :=
  if p.header.hasFreeTuple then
    match p.header.nextFreeTuple with
    | .error e => .error e
    | .ok none => .error "TypeError: unsupported operand type for NoneType"
    | .ok (some (h2, slotIndex)) =>
      let start := slotIndex * h2.tupleSize + h2.headerSize
      let stop := start + h2.tupleSize
      match writeSlice p.buf start stop tupleData with
      | .ok buf2 =>
        .ok (some (({ pageId := p.pageId, header := h2, buf := buf2 } : SPage).setDirtyTrue,
                   { pageId := p.pageId, tupleIndex := slotIndex }))
      | .error e => .error e
  else .ok none

/-- `clearTuple(tupleId)`: if occupied, zero every byte of the slot range
(`for i in range(start, end): buffer[i] = 0`, raising `IndexError` past the
buffer end) and mark dirty; occupancy is left untouched.  Else `None`. -/
def SPage.clearTuple (p : SPage) (t : TupleId) : Except String (Option SPage) :=
  let tupleIndex := t.tupleIndex
  if p.header.hasSlot tupleIndex then
    let start := tupleIndex * p.header.tupleSize + p.header.headerSize
    let stop := start + p.header.tupleSize
    if stop ≤ p.buf.length ∨ stop ≤ start then
      .ok (some (({ p with
        buf := p.buf.take start ++
               List.replicate (min stop p.buf.length - min start p.buf.length) 0 ++
               p.buf.drop stop } : SPage).setDirtyTrue))
    else .error "IndexError: index out of range"
  else .ok none

/-- `deleteTuple(tupleId)`: if occupied, empty `usedSlots` and `freeSlots`,
clear the bitmap bit, run the shift loop over
`range(tupleIndex, len(self.header.usedSlots))` — which is empty, because
`usedSlots` was emptied on the line before — rebuild `usedSlots` and
`freeSlots` by scanning the bitmap, reset `nextSlot` to the new free front,
and mark dirty.  Else `None`. -/
def SPage.deleteTuple (p : SPage) (t : TupleId) : Except String (Option SPage) :=
  let tupleIndex := t.tupleIndex
  let h := p.header
  if h.hasSlot tupleIndex then
    let used0 : List ℕ := []
    if tupleIndex < h.slotBuffer.length then
      let sb0 := h.slotBuffer.set tupleIndex 0
      let start := tupleIndex * h.tupleSize + h.headerSize
      let stop := start + h.tupleSize
      let shifted : List ℕ × List ℕ :=
        (pyRange tupleIndex used0.length).foldl
          (fun st i =>
            (st.1.take (start + i * h.tupleSize) ++
               readSlice st.1 (start + (i + 1) * h.tupleSize) (stop + (i + 1) * h.tupleSize) ++
               st.1.drop (stop + i * h.tupleSize),
             st.2.set i (st.2.getD (i + 1) 0)))
          (p.buf, sb0)
      let sb := shifted.2
      if h.numSlots ≤ sb.length then
        let used2 := (pyRange 0 h.numSlots).filter (fun i => sb.getD i 0 = 1)
        let free2 := (pyRange 0 h.numSlots).filter (fun i => ¬ sb.getD i 0 = 1)
        match free2 with
        | [] => .error "IndexError: list index out of range"
        | f0 :: _ =>
          let h2 : SPHeader :=
            { h with slotBuffer := sb, usedSlots := used2,
                     freeSlots := free2, nextSlot := f0 }
          .ok (some (({ pageId := p.pageId, header := h2,
                        buf := shifted.1 } : SPage).setDirtyTrue))
      else .error "IndexError: list index out of range"
    else .error "IndexError: list assignment index out of range"
  else .ok none

/-- The tuple iterator: `__next__` walks `usedSlots` in list order and calls
`getTuple` on each entry. -/
def SPage.iterate (p : SPage) : List (Option (List ℕ)) :=
  p.header.usedSlots.map (fun s => p.getTuple { pageId := p.pageId, tupleIndex := s })

/-- `SlottedPage.pack()`: re-serialize the header into the buffer front and
return the whole buffer. -/
def SPage.packPage (p : SPage) : Except String (List ℕ) :=
  match writeSlice p.buf 0 p.header.headerSize p.header.packHeader with
  | .ok buf2 => .ok buf2
  | .error e => .error e

/-- Repeated insertion: the page state after `n` calls of `insertTuple` with
data `ds 0, ds 1, …`, or `.ok none` once an insert reports page-full, or the
first raised error. -/
def insertChain (ds : ℕ → List ℕ) (p : SPage) : ℕ → Except String (Option SPage)
  | 0 => .ok (some p)
  | n + 1 =>
    match insertChain ds p n with
    | .ok (some q) =>
      match q.insertTuple (ds n) with
      | .ok (some r) => .ok (some r.1)
      | .ok none => .ok none
      | .error e => .error e
    | x => x

/-- The claimed occupancy invariant: `usedSlots` and `freeSlots` partition
`{0..numSlots-1}` (full union, disjoint, no duplicates) and bitmap bit `i`
is 1 exactly for members of `usedSlots`. -/
def OccupancyInv (h : SPHeader) : Prop :=
  (∀ i, (i ∈ h.usedSlots ∨ i ∈ h.freeSlots) ↔ i < h.numSlots) ∧
  (∀ i, ¬(i ∈ h.usedSlots ∧ i ∈ h.freeSlots)) ∧
  h.usedSlots.Nodup ∧ h.freeSlots.Nodup ∧
  (∀ i, i < h.numSlots → (h.slotBuffer.getD i 0 = 1 ↔ i ∈ h.usedSlots))

/-- Strengthened header well-formedness used as the inductive invariant:
the occupancy invariant plus bookkeeping facts every constructor-made
header satisfies and every mutation preserves. -/
def HeaderWF (h : SPHeader) : Prop :=
  OccupancyInv h ∧
  h.slotBuffer.length = h.numSlots ∧
  (∀ b ∈ h.slotBuffer, b ≤ 1) ∧
  (∀ x, h.freeSlots.head? = some x → h.nextSlot = x) ∧
  h.numSlots = (numSlotsInit h.pageCapacity (h.tupleSize : ℤ)).toNat ∧
  0 ≤ numSlotsInit h.pageCapacity (h.tupleSize : ℤ) ∧
  numSlotsInit h.pageCapacity (h.tupleSize : ℤ) ≤ 65535 ∧
  h.tupleSize ≤ 65535 ∧ 0 < h.pageCapacity ∧ h.pageCapacity ≤ 65535 ∧
  h.headerSize ≤ h.pageCapacity ∧ h.flags ≤ 255 ∧ h.nextSlot ≤ 65535

/-- Header states reachable through construction, allocation
(`nextFreeTuple`, the header effect of `insertTuple`), `deleteTuple`, and
the page-level dirty marking; `pack` does not mutate the header and
`unpack` is deliberately excluded (see the C4 analysis). -/
inductive ReachableH : SPHeader → Prop where
  | construct (buf : List ℕ) (ts : ℤ) (flags : ℕ) (h : SPHeader) (buf2 : List ℕ) :
      flags ≤ 255 → initHeader buf ts flags = .ok (h, buf2) → ReachableH h
  | alloc (h h2 : SPHeader) (i : ℕ) : ReachableH h →
      h.nextFreeTuple = .ok (some (h2, i)) → ReachableH h2
  | del (p : SPage) (t : TupleId) (q : SPage) : ReachableH p.header →
      p.deleteTuple t = .ok (some q) → ReachableH q.header
  | dirty (h : SPHeader) : ReachableH h → ReachableH h.setDirtyTrue

/-- Slot count of a fresh `(pageCapacity, tupleSize)` header. -/
def fillNS (pc tsN : ℕ) : ℕ := (numSlotsInit pc (tsN : ℤ)).toNat

/-- Header size of a fresh `(pageCapacity, tupleSize)` header. -/
def fillHS (pc tsN : ℕ) : ℕ := headerSizeOf (fillNS pc tsN)

/-- Closed form of the header state after `k` sequential inserts into a
fresh page: slots `0..k-1` used in order, `nextSlot = k`, dirty after the
first insert. -/
def fillHeader (pc tsN k : ℕ) : SPHeader :=
  { flags := if k = 0 then 0 else 1, tupleSize := tsN, pageCapacity := pc,
    numSlots := fillNS pc tsN, nextSlot := k,
    slotBuffer := (List.range (fillNS pc tsN)).map (fun i => if i < k then 1 else 0),
    usedSlots := List.range k, freeSlots := pyRange k (fillNS pc tsN) }

/-- Closed form of the page buffer after `k` sequential inserts into a fresh
zeroed page: the packed fresh header, then the tuple data in slot order. -/
def fillBuf (pc tsN : ℕ) (ds : ℕ → List ℕ) : ℕ → List ℕ
  | 0 => (fillHeader pc tsN 0).packHeader ++ List.replicate (pc - fillHS pc tsN) 0
  | k + 1 =>
    let b := fillBuf pc tsN ds k
    b.take (k * tsN + fillHS pc tsN) ++ ds k ++ b.drop (k * tsN + fillHS pc tsN + tsN)

/-- Closed form of the whole page state after `k` sequential inserts. -/
def fillPage (pid pc tsN : ℕ) (ds : ℕ → List ℕ) (k : ℕ) : SPage :=
  { pageId := pid, header := fillHeader pc tsN k, buf := fillBuf pc tsN ds k }

/-- The header state immediately after the `k`-th allocation, before the
page-level dirty marking (its flags are still those of the `k`-insert
state). -/
def fillMid (pc tsN k : ℕ) : SPHeader :=
  { flags := if k = 0 then 0 else 1, tupleSize := tsN, pageCapacity := pc,
    numSlots := fillNS pc tsN, nextSlot := k + 1,
    slotBuffer := (List.range (fillNS pc tsN)).map
      (fun i => if i < k + 1 then (1 : ℕ) else 0),
    usedSlots := List.range (k + 1),
    freeSlots := pyRange (k + 1) (fillNS pc tsN) }

/-- Modelled from the spec: `Catalog.Schema.DBSchema` is not under the
sources; per the spec it is an opaque pack/unpack service over fixed-size
records, and the scenario schema `[(id, int), (age, int)]` has `size = 8`,
i.e. two native little-endian 32-bit integers. -/
def encInt4 (n : ℕ) : List ℕ :=
  [n % 256, n / 256 % 256, n / 65536 % 256, n / 16777216 % 256]

/-- Modelled from the spec: `schema.pack` of an employee record. -/
def empPack (idv age : ℕ) : List ℕ := encInt4 idv ++ encInt4 age

/-- Modelled from the spec: the age field of a packed employee record. -/
def empAge (bs : List ℕ) : ℕ :=
  bs.getD 4 0 + 256 * bs.getD 5 0 + 65536 * bs.getD 6 0 + 16777216 * bs.getD 7 0

/-- The delete-compaction scenario of the spec: ages 25, 20, 22, 24 at
slots 0..3 (ids 1..4). -/
def scenDs : ℕ → List ℕ := fun k => empPack (k + 1) ([25, 20, 22, 24].getD k 0)

/-- A fresh 64-byte page with `tupleSize = 8` (the employee schema). -/
def scenPage0 : SPage := exOk (initPage 7 (List.replicate 64 0) 8)

/-- The scenario page after the four inserts. -/
def scenPage4 : SPage := (exOk (insertChain scenDs scenPage0 4)).getD default

/-- The scenario page after `deleteTuple` on slot 0. -/
def scenPage5 : SPage := (exOk (scenPage4.deleteTuple { pageId := 7, tupleIndex := 0 })).getD default

/-- A fresh header over a 64-byte buffer with `tupleSize = 16`
(numSlots 63, headerSize 18). -/
def ce3h0 : SPHeader := (exOk (initHeader (List.replicate 64 0) 16 0)).1

/-- `ce3h0` after one `nextFreeTuple()` (slot 0 allocated, `nextSlot = 1`). -/
def ce3h1 : SPHeader := ((exOk ce3h0.nextFreeTuple).getD default).1

/-- The result of unpacking the full page image of `ce3h1` (header bytes
followed by the zero tuple region, `pageCapacity` bytes in total). -/
def ce3hx : SPHeader :=
  exOk (SPHeader.unpack (ce3h1.packHeader ++ List.replicate (64 - 18) 0))

/-- The buffer of a fresh header page over 32 zero bytes, `tupleSize = 8`. -/
def ce4buf : List ℕ := (exOk (initHeader (List.replicate 32 0) 8 0)).2

/-- The header reconstructed by `unpack` from `ce4buf`. -/
def ce4hx : SPHeader := exOk (SPHeader.unpack ce4buf)



/-- Floor of an integer quotient with positive denominator is integer
division. -/
theorem floorDivInt (n d : ℤ) (hd : 0 < d) : ⌊(n : ℚ) / (d : ℚ)⌋ = n / d := by
  have h2 : ((d.toNat : ℕ) : ℤ) = d := Int.toNat_of_nonneg hd.le
  have h1 : ((d.toNat : ℕ) : ℚ) = (d : ℚ) := by
    exact_mod_cast congrArg (fun z : ℤ => (z : ℚ)) h2
  rw [← h1, Rat.floor_intCast_div_natCast, h2]

/-- Faithfulness of `numSlotsInit`: it is the floor of the exact rational
value of the source expression `pageCapacity - reprSize/(tupleSize+0.125)`. -/
theorem numSlotsInit_eq_floor (pc : ℕ) (ts : ℤ) :
    numSlotsInit pc ts = ⌊(pc : ℚ) - 10 / ((ts : ℚ) + 1/8)⌋ := by
  have hne : (8 * ts + 1 : ℤ) ≠ 0 := by omega
  have hneQ : ((8 * ts + 1 : ℤ) : ℚ) ≠ 0 := by exact_mod_cast hne
  have hkey : (pc : ℚ) - 10 / ((ts : ℚ) + 1/8) =
      ((pc : ℤ) : ℚ) + ((-80 : ℤ) : ℚ) / ((8 * ts + 1 : ℤ) : ℚ) := by
    have h8 : ((ts : ℚ) + 1/8) = ((8 * ts + 1 : ℤ) : ℚ) / 8 := by push_cast; ring
    rw [h8]
    field_simp
    ring
  rw [hkey, Int.floor_int_add]
  by_cases h : 0 ≤ ts
  · rw [floorDivInt _ _ (by omega)]
    simp [numSlotsInit, h]
  · have hflip : ((-80 : ℤ) : ℚ) / ((8 * ts + 1 : ℤ) : ℚ) =
        ((80 : ℤ) : ℚ) / ((-(8 * ts + 1) : ℤ) : ℚ) := by
      push_cast
      rw [div_neg, neg_div]
    rw [hflip, floorDivInt _ _ (by omega)]
    simp [numSlotsInit, h]

/-- The spec slot-count formula as an integer quotient. -/
theorem specNumSlots_eq_div (pc ts : ℕ) :
    specNumSlots pc ts = (8 * (pc : ℤ) - 80) / (8 * (ts : ℤ) + 1) := by
  unfold specNumSlots
  have hkey : ((pc : ℚ) - reprSize) / ((ts : ℚ) + 1/8) =
      ((8 * (pc : ℤ) - 80 : ℤ) : ℚ) / ((8 * (ts : ℤ) + 1 : ℤ) : ℚ) := by
    have hne : ((8 * (ts : ℤ) + 1 : ℤ) : ℚ) ≠ 0 := by
      have : (8 * (ts : ℤ) + 1 : ℤ) ≠ 0 := by omega
      exact_mod_cast this
    rw [div_eq_div_iff (by positivity) hne]
    push_cast [reprSize]
    ring
  rw [hkey, floorDivInt _ _ (by omega)]

/-- Membership in a Python range. -/
theorem mem_pyRange {m a b : ℕ} : m ∈ pyRange a b ↔ a ≤ m ∧ m < b := by
  unfold pyRange
  rw [List.mem_range'_1]
  omega

/-- Python ranges have no duplicates. -/
theorem pyRange_nodup (a b : ℕ) : (pyRange a b).Nodup := by
  unfold pyRange
  exact List.nodup_range' a (b - a) 1 Nat.one_pos

/-- `range(0, n)` is `List.range n`. -/
theorem pyRange_zero (n : ℕ) : pyRange 0 n = List.range n := by
  unfold pyRange
  rw [List.range_eq_range']
  simp

/-- Splitting the last element off a Python range. -/
theorem pyRange_concat (a b : ℕ) (h : a ≤ b) : pyRange a (b + 1) = pyRange a b ++ [b] := by
  unfold pyRange
  have hrw : b + 1 - a = (b - a) + 1 := by omega
  rw [hrw, List.range'_concat]
  have : a + 1 * (b - a) = b := by omega
  rw [this]

/-- Splitting the first element off a Python range. -/
theorem pyRange_cons (a b : ℕ) (h : a < b) : pyRange a b = a :: pyRange (a + 1) b := by
  unfold pyRange
  have hrw : b - a = (b - (a + 1)) + 1 := by omega
  rw [hrw, List.range'_succ]

/-- How one `packBitmapStep` changes the emitted-bytes length. -/
theorem packBitmapStep_length (sb : List ℕ) (ns : ℕ) (st : List ℕ × ℕ × ℕ) (i : ℕ) :
    ((packBitmapStep sb ns st i).1).length =
      st.1.length + (if i ≠ 0 ∧ i % 8 = 0 then 1 else 0) +
        (if i = ns - 1 then 1 else 0) := by
  unfold packBitmapStep
  dsimp only []
  split_ifs <;> simp_all

/-- Emitted-bytes length after the first `m` iterations of the pack loop,
as long as the final-slot append has not fired. -/
theorem packBitmap_aux (sb : List ℕ) (n : ℕ) :
    ∀ m, m ≤ n →
      ((((List.range m).foldl (packBitmapStep sb (n + 1)) ([], 0, 0)).1)).length =
        (m - 1) / 8 := by
  intro m
  induction m with
  | zero => intro _; simp
  | succ k ih =>
    intro hk
    rw [List.range_succ, List.foldl_append]
    simp only [List.foldl_cons, List.foldl_nil]
    rw [packBitmapStep_length, ih (by omega)]
    have hkn : ¬ (k = n) := by omega
    by_cases h0 : k = 0 <;> by_cases h8 : k % 8 = 0 <;> simp [h0, h8, hkn] <;> omega

/-- `pack()` emits exactly `ceil(numSlots/8)` bitmap bytes. -/
theorem packBitmap_length (h : SPHeader) :
    h.packBitmap.length = (h.numSlots + 7) / 8 := by
  unfold SPHeader.packBitmap
  rcases hn : h.numSlots with _ | n
  · simp
  · rw [List.range_succ, List.foldl_append]
    simp only [List.foldl_cons, List.foldl_nil]
    rw [packBitmapStep_length, packBitmap_aux h.slotBuffer n n le_rfl]
    by_cases h0 : n = 0 <;> by_cases h8 : n % 8 = 0 <;> simp [h0, h8] <;> omega

/-- `pack()` produces exactly `headerSize()` bytes. -/
theorem packHeader_length (h : SPHeader) : h.packHeader.length = h.headerSize := by
  unfold SPHeader.packHeader SPHeader.headerSize headerSizeOf reprSize
  rw [List.length_append, packBitmap_length]
  simp [SPHeader.packScalars]

/-- For `tupleSize ≥ 1` the buggy slot count is at least `pageCapacity - 9`. -/
theorem numSlotsInit_lb (pc : ℕ) (ts : ℤ) (hts : 1 ≤ ts) :
    (pc : ℤ) - 9 ≤ numSlotsInit pc ts := by
  unfold numSlotsInit
  rw [if_pos (by omega)]
  have hdiv : (-9 : ℤ) ≤ (-80) / (8 * ts + 1) := by
    rw [Int.le_ediv_iff_mul_le (by omega)]
    nlinarith
  omega

/-- For `tupleSize ≥ 0` the buggy slot count is below `pageCapacity`. -/
theorem numSlotsInit_ub (pc : ℕ) (ts : ℤ) (hts : 0 ≤ ts) :
    numSlotsInit pc ts ≤ (pc : ℤ) - 1 := by
  unfold numSlotsInit
  rw [if_pos hts]
  have hdiv : (-80 : ℤ) / (8 * ts + 1) < 0 :=
    Int.ediv_neg' (by omega) (by omega)
  omega

/-- Successful in-range slice assignment, explicitly. -/
theorem writeSlice_eq_ok (buf data : List ℕ) (start stop : ℕ)
    (hstop : stop ≤ buf.length) (hss : start ≤ stop)
    (hlen : data.length = stop - start) :
    writeSlice buf start stop data = .ok (buf.take start ++ data ++ buf.drop stop) := by
  unfold writeSlice
  rw [if_pos (by omega)]
  have hrw : start + data.length = stop := by omega
  rw [hrw]

/-- Reading back a slice that sits exactly between a prefix and a suffix. -/
theorem readSlice_exact (x y z : List ℕ) (start stop : ℕ)
    (hx : x.length = start) (hy : y.length = stop - start) (hss : start ≤ stop) :
    readSlice (x ++ y ++ z) start stop = y := by
  unfold readSlice
  have h1 : (x ++ y).length = stop := by simp [hx, hy]; omega
  rw [List.take_left' h1, List.drop_left' hx]

/-- Characterisation of a successful header construction: nonempty buffer,
all four `H` fields in 16-bit range, and the packed header fitting in the
buffer; the result is the `mkInitHeader` record and the buffer with the
packed header written over its front. -/
theorem initHeader_ok_iff (buf : List ℕ) (ts : ℤ) (flags : ℕ) (h : SPHeader)
    (buf2 : List ℕ) :
    initHeader buf ts flags = .ok (h, buf2) ↔
      (0 < buf.length ∧ 0 ≤ ts ∧ ts ≤ 65535 ∧ (buf.length : ℤ) ≤ 65535 ∧
       0 ≤ numSlotsInit buf.length ts ∧ numSlotsInit buf.length ts ≤ 65535 ∧
       headerSizeOf (numSlotsInit buf.length ts).toNat ≤ buf.length ∧
       h = mkInitHeader buf.length ts flags ∧
       buf2 = (mkInitHeader buf.length ts flags).packHeader ++
         buf.drop (headerSizeOf (numSlotsInit buf.length ts).toNat)) := by
  have hplen : (mkInitHeader buf.length ts flags).packHeader.length =
      headerSizeOf (numSlotsInit buf.length ts).toNat := by
    rw [packHeader_length]
    simp [mkInitHeader, SPHeader.headerSize]
  unfold initHeader
  dsimp only []
  split_ifs with h1 h2
  · simp [h1]
  · constructor
    · intro hc; cases hc
    · rintro ⟨-, hts0, hts1, hlen, hns0, hns1, -⟩
      omega
  · push_neg at h2
    rcases h2 with ⟨hts0, hts1, hlen, hns0, hns1⟩
    by_cases hfit : headerSizeOf (numSlotsInit buf.length ts).toNat ≤ buf.length
    · rw [writeSlice_eq_ok buf _ 0 (headerSizeOf (numSlotsInit buf.length ts).toNat)
        hfit (Nat.zero_le _) (by rw [hplen]; omega)]
      simp only [List.take_zero, List.nil_append, Except.ok.injEq, Prod.mk.injEq]
      constructor
      · rintro ⟨hh, hb⟩
        exact ⟨by omega, hts0, hts1, hlen, hns0, hns1, hfit, hh.symm, hb.symm⟩
      · rintro ⟨-, -, -, -, -, -, -, hh, hb⟩
        exact ⟨hh.symm, hb.symm⟩
    · have : writeSlice buf 0 (headerSizeOf (numSlotsInit buf.length ts).toNat)
          (mkInitHeader buf.length ts flags).packHeader =
          .error "ValueError: memoryview assignment: lvalue and rvalue have different structures" := by
        unfold writeSlice
        rw [if_neg]
        rw [hplen]
        omega
      rw [this]
      constructor
      · intro hc; cases hc
      · rintro ⟨-, -, -, -, -, -, hfit2, -⟩
        exact absurd hfit2 hfit

/-- An empty Python range. -/
theorem pyRange_nil (a b : ℕ) (h : b ≤ a) : pyRange a b = [] := by
  unfold pyRange
  have : b - a = 0 := by omega
  rw [this]
  rfl

/-- Anatomy of a successful `deleteTuple`: the guards that must have held
and the exact resulting state.  The byte buffer is returned unchanged: the
shift loop runs over `range(tupleIndex, len(usedSlots))` after `usedSlots`
has been emptied, hence over `range(tupleIndex, 0) = []`. -/
theorem deleteTuple_ok_elim (p : SPage) (t : TupleId) (q : SPage)
    (hdel : p.deleteTuple t = .ok (some q)) :
    p.header.hasSlot t.tupleIndex = true ∧
    t.tupleIndex < p.header.slotBuffer.length ∧
    p.header.numSlots ≤ p.header.slotBuffer.length ∧
    q.pageId = p.pageId ∧ q.buf = p.buf ∧
    q.header.flags = p.header.flags ||| dirtyMask ∧
    q.header.tupleSize = p.header.tupleSize ∧
    q.header.pageCapacity = p.header.pageCapacity ∧
    q.header.numSlots = p.header.numSlots ∧
    q.header.slotBuffer = p.header.slotBuffer.set t.tupleIndex 0 ∧
    q.header.usedSlots = (pyRange 0 p.header.numSlots).filter
      (fun i => (p.header.slotBuffer.set t.tupleIndex 0).getD i 0 = 1) ∧
    q.header.freeSlots = (pyRange 0 p.header.numSlots).filter
      (fun i => ¬ (p.header.slotBuffer.set t.tupleIndex 0).getD i 0 = 1) ∧
    (∃ f0 rest, q.header.freeSlots = f0 :: rest ∧ q.header.nextSlot = f0) := by
  unfold SPage.deleteTuple at hdel
  dsimp only [] at hdel
  simp only [List.length_nil,
    show ∀ a, pyRange a 0 = [] from fun a => pyRange_nil a 0 (Nat.zero_le a),
    List.foldl_nil] at hdel
  split_ifs at hdel with hslot hidx hns
  · rcases hfree : (pyRange 0 p.header.numSlots).filter
        (fun i => ¬ (p.header.slotBuffer.set t.tupleIndex 0).getD i 0 = 1) with _ | ⟨f0, rest⟩
    · rw [hfree] at hdel
      cases hdel
    · rw [hfree] at hdel
      simp only [Except.ok.injEq, Option.some.injEq] at hdel
      subst hdel
      have hns' : p.header.numSlots ≤ p.header.slotBuffer.length := by
        simpa using hns
      refine ⟨hslot, hidx, hns', rfl, rfl, rfl, rfl, rfl, rfl, rfl, rfl, ?_, ?_⟩
      · simp [SPage.setDirtyTrue, SPHeader.setDirtyTrue, hfree]
      · exact ⟨f0, rest, by simp [SPage.setDirtyTrue, SPHeader.setDirtyTrue, hfree], rfl⟩
  all_goals cases hdel

/-- Anatomy of a successful allocation via `nextFreeTuple`. -/
theorem nextFreeTuple_ok_elim (h h2 : SPHeader) (i : ℕ)
    (halloc : h.nextFreeTuple = .ok (some (h2, i))) :
    h.hasFreeTuple = true ∧ i = h.nextSlot ∧ h.nextSlot < h.slotBuffer.length ∧
    (∃ r0 rest2, h.freeSlots.tail = r0 :: rest2) ∧
    h2 = { h with slotBuffer := h.slotBuffer.set h.nextSlot 1,
                  usedSlots := h.usedSlots ++ [h.nextSlot],
                  freeSlots := h.freeSlots.tail,
                  nextSlot := h.freeSlots.tail.headI } := by
  unfold SPHeader.nextFreeTuple at halloc
  dsimp only [] at halloc
  split_ifs at halloc with hfree hidx
  · rcases hfs : h.freeSlots with _ | ⟨f0, rest⟩
    · rw [hfs] at halloc
      cases halloc
    · rw [hfs] at halloc
      rcases hrest : rest with _ | ⟨r0, rest2⟩
      · rw [hrest] at halloc
        cases halloc
      · rw [hrest] at halloc
        simp only [Except.ok.injEq, Option.some.injEq, Prod.mk.injEq] at halloc
        refine ⟨hfree, halloc.2.symm, hidx, ⟨r0, rest2, by simp [hfs, hrest]⟩, ?_⟩
        rw [← halloc.1]
        simp [hfs, hrest]
  all_goals cases halloc

/-- Setting the dirty flag makes `isDirty()` true. -/
theorem setDirtyTrue_isDirty (h : SPHeader) : h.setDirtyTrue.isDirty = true := by
  simp only [SPHeader.isDirty, SPHeader.setDirtyTrue, dirtyMask, ne_eq,
    decide_eq_true_eq]
  have h0 : (h.flags ||| 1).testBit 0 = true := by simp [Nat.testBit_or]
  intro hc
  rw [Nat.testBit_zero] at h0
  rw [Nat.and_one_is_mod] at hc
  simp [hc] at h0

/-- After a successful `deleteTuple`, the deleted slot is no longer in
`usedSlots`. -/
theorem deleteTuple_removes (p : SPage) (t : TupleId) (q : SPage)
    (hdel : p.deleteTuple t = .ok (some q)) :
    t.tupleIndex ∉ q.header.usedSlots := by
  obtain ⟨hslot, hidx, hns, hpid, hbuf, hflags, hts, hpc, hnsq, hsb, hused, hfree, hnext⟩ :=
    deleteTuple_ok_elim p t q hdel
  rw [hused]
  intro hmem
  rw [List.mem_filter] at hmem
  have hz : (p.header.slotBuffer.set t.tupleIndex 0).getD t.tupleIndex 0 = 0 := by
    rw [List.getD_eq_getElem?_getD, List.getElem?_set_self (by omega)]
    simp
  have h1 := hmem.2
  simp only [decide_eq_true_eq] at h1
  omega

/-- C1.  The claim is right and the code is wrong: at the representative
valid input `pageCapacity = 64`, `tupleSize = 8`, construction succeeds and
computes `numSlots = 62` — the misparenthesised
`floor(pageCapacity - reprSize/(tupleSize+0.125))` — whereas the spec
formula gives `floor((64-10)/8.125) = 6`; the capacity invariant
`headerSize() + numSlots*tupleSize ≤ pageCapacity` is violated
(18 + 62·8 = 514 > 64). -/
theorem c1_numSlots_capacity_violation :
    isOkE (initHeader (List.replicate 64 0) 8 0) = true ∧
    (exOk (initHeader (List.replicate 64 0) 8 0)).1.numSlots = 62 ∧
    specNumSlots 64 8 = 6 ∧
    SPHeader.headerSize (exOk (initHeader (List.replicate 64 0) 8 0)).1 = 18 ∧
    ¬ (SPHeader.headerSize (exOk (initHeader (List.replicate 64 0) 8 0)).1 +
        (exOk (initHeader (List.replicate 64 0) 8 0)).1.numSlots * 8 ≤ 64) := by
  refine ⟨by decide, by decide, ?_, by decide, by decide⟩
  rw [specNumSlots_eq_div]
  decide

/-- C2.  The claim is right and the code is wrong: deleting slot 0 of the
four-tuple scenario page succeeds and recomputes the occupancy bookkeeping,
but performs no physical compaction — the buffer is bit-for-bit unchanged,
slot 0's byte range still holds the first tuple, slot 1's range still holds
the second, and the remaining used slots are `[1, 2, 3]` rather than the
shifted `[0, 1, 2]`.  The shift loop iterates over
`range(tupleIndex, len(usedSlots))` after `usedSlots` was emptied on the
preceding line, so it runs zero times. -/
theorem c2_delete_no_physical_shift :
    scenPage4.deleteTuple { pageId := 7, tupleIndex := 0 } = .ok (some scenPage5) ∧
    scenPage5.buf = scenPage4.buf ∧
    scenPage5.header.usedSlots = [1, 2, 3] ∧
    readSlice scenPage5.buf 18 26 = empPack 1 25 ∧
    readSlice scenPage5.buf 26 34 = empPack 2 20 ∧
    scenPage5.header.isDirty = true := by decide

/-- C8.  Given the scenario page holding tuples with ages 25, 20, 22, 24 at
slots 0..3 (inserted in that order), deleting slot 0 yields iteration ages
`[20, 22, 24]` in order and reduces `usedSpace()` by exactly one
`tupleSize`. -/
theorem c8_delete_scenario :
    initPage 7 (List.replicate 64 0) 8 = .ok scenPage0 ∧
    insertChain scenDs scenPage0 4 = .ok (some scenPage4) ∧
    scenPage4.iterate.map (Option.map empAge) =
      [some 25, some 20, some 22, some 24] ∧
    scenPage4.deleteTuple { pageId := 7, tupleIndex := 0 } = .ok (some scenPage5) ∧
    scenPage5.iterate.map (Option.map empAge) = [some 20, some 22, some 24] ∧
    scenPage5.header.usedSpace + scenPage4.header.tupleSize =
      scenPage4.header.usedSpace := by decide

/-- C6.  Every tuple operation addressing a slot outside `usedSlots`
returns the `None` sentinel without raising and without changing any state,
and `insertTuple` on a page without a free tuple slot likewise returns
`None` without raising. -/
theorem c6_notfound_tolerant (p : SPage) (t : TupleId) (d : List ℕ)
    (hocc : t.tupleIndex ∉ p.header.usedSlots) :
    p.getTuple t = none ∧ p.putTuple t d = .ok none ∧
    p.clearTuple t = .ok none ∧ p.deleteTuple t = .ok none ∧
    (p.header.hasFreeTuple = false → p.insertTuple d = .ok none) := by
  have hslot : p.header.hasSlot t.tupleIndex = false := by
    simp only [SPHeader.hasSlot, List.contains]
    simp
    exact hocc
  refine ⟨?_, ?_, ?_, ?_, ?_⟩
  · simp [SPage.getTuple, hslot]
  · simp [SPage.putTuple, hslot]
  · simp [SPage.clearTuple, hslot]
  · simp [SPage.deleteTuple, hslot]
  · intro hf
    simp [SPage.insertTuple, hf]

/-- Witness for C6 at the fresh scenario page and slot index 5. -/
theorem c6_notfound_tolerant_witness :
    scenPage0.getTuple { pageId := 7, tupleIndex := 5 } = none ∧
    scenPage0.putTuple { pageId := 7, tupleIndex := 5 } [] = .ok none ∧
    scenPage0.clearTuple { pageId := 7, tupleIndex := 5 } = .ok none ∧
    scenPage0.deleteTuple { pageId := 7, tupleIndex := 5 } = .ok none ∧
    (scenPage0.header.hasFreeTuple = false → scenPage0.insertTuple [] = .ok none) :=
  c6_notfound_tolerant scenPage0 { pageId := 7, tupleIndex := 5 } [] (by decide)

/-- C7 counterexample.  The claim fails in both directions: construction
with `tupleSize = 0` over a 256-byte buffer succeeds (no invalid-argument
error is raised for non-positive tuple size), and construction over a
buffer of exactly the fixed prefix size (10 bytes, so not "too small for
even the fixed prefix") with `tupleSize = 16` raises. -/
theorem c7_construction_counterexample :
    isOkE (initHeader (List.replicate 256 0) 0 0) = true ∧
    reprSize ≤ (List.replicate 10 0).length ∧
    isOkE (initHeader (List.replicate 10 0) 16 0) = false := by decide

/-- C7 amended.  Construction succeeds exactly when the buffer is nonempty,
the four packed fields (tupleSize, pageCapacity = buffer length, computed
numSlots, nextSlot) are in unsigned-16-bit range — in particular a negative
`tupleSize` raises `struct.error`, while `tupleSize = 0` passes — and the
packed header (fixed prefix plus bitmap bytes) fits in the buffer. -/
theorem c7_construction_amended (buf : List ℕ) (ts : ℤ) (flags : ℕ) :
    (∃ h buf2, initHeader buf ts flags = .ok (h, buf2)) ↔
      (0 < buf.length ∧ 0 ≤ ts ∧ ts ≤ 65535 ∧ (buf.length : ℤ) ≤ 65535 ∧
       0 ≤ numSlotsInit buf.length ts ∧ numSlotsInit buf.length ts ≤ 65535 ∧
       headerSizeOf (numSlotsInit buf.length ts).toNat ≤ buf.length) := by
  constructor
  · rintro ⟨h, buf2, hok⟩
    obtain ⟨h1, h2, h3, h4, h5, h6, h7, -, -⟩ := (initHeader_ok_iff buf ts flags h buf2).1 hok
    exact ⟨h1, h2, h3, h4, h5, h6, h7⟩
  · rintro ⟨h1, h2, h3, h4, h5, h6, h7⟩
    exact ⟨_, _, (initHeader_ok_iff buf ts flags _ _).2 ⟨h1, h2, h3, h4, h5, h6, h7, rfl, rfl⟩⟩

/-- C10.  A successful `deleteTuple` leaves the byte buffer (and hence the
whole tuple-storage region, including the deleted tuple's own bytes)
completely unchanged; only the bitmap (bit `tupleIndex` cleared), the
used/free lists, `nextSlot`, and the dirty flag change, while `tupleSize`,
`pageCapacity`, `numSlots` and the page id are preserved. -/
theorem c10_delete_frame (p : SPage) (t : TupleId) (q : SPage)
    (hdel : p.deleteTuple t = .ok (some q)) :
    q.buf = p.buf ∧ q.pageId = p.pageId ∧
    q.header.tupleSize = p.header.tupleSize ∧
    q.header.pageCapacity = p.header.pageCapacity ∧
    q.header.numSlots = p.header.numSlots ∧
    q.header.flags = p.header.flags ||| dirtyMask ∧
    q.header.slotBuffer = p.header.slotBuffer.set t.tupleIndex 0 ∧
    t.tupleIndex ∉ q.header.usedSlots := by
  obtain ⟨hslot, hidx, hns, hpid, hbuf, hflags, hts, hpc, hnsq, hsb, hused, hfree, hnext⟩ :=
    deleteTuple_ok_elim p t q hdel
  exact ⟨hbuf, hpid, hts, hpc, hnsq, hflags, hsb, deleteTuple_removes p t q hdel⟩

/-- Witness for C10 at the four-tuple scenario page, deleting slot 0. -/
theorem c10_delete_frame_witness :
    scenPage5.buf = scenPage4.buf ∧ scenPage5.pageId = scenPage4.pageId ∧
    scenPage5.header.tupleSize = scenPage4.header.tupleSize ∧
    scenPage5.header.pageCapacity = scenPage4.header.pageCapacity ∧
    scenPage5.header.numSlots = scenPage4.header.numSlots ∧
    scenPage5.header.flags = scenPage4.header.flags ||| dirtyMask ∧
    scenPage5.header.slotBuffer = scenPage4.header.slotBuffer.set 0 0 ∧
    (0 : ℕ) ∉ scenPage5.header.usedSlots :=
  c10_delete_frame scenPage4 { pageId := 7, tupleIndex := 0 } scenPage5 (by decide)

/-- C9.  For an occupied, in-bounds slot, `clearTuple` zeroes exactly that
slot's byte range, leaves the slot occupied (same `usedSlots`, same
`usedSpace()`, same iteration length, and a subsequent `getTuple` returns
all-zero bytes) and marks the page dirty; `deleteTuple`, by contrast,
removes the slot from `usedSlots` (and hence from iteration). -/
theorem c9_clear_vs_delete (p : SPage) (t : TupleId)
    (hocc : t.tupleIndex ∈ p.header.usedSlots)
    (hbound : t.tupleIndex * p.header.tupleSize + p.header.headerSize +
      p.header.tupleSize ≤ p.buf.length) :
    ∃ p2, p.clearTuple t = .ok (some p2) ∧
      p2.buf = p.buf.take (t.tupleIndex * p.header.tupleSize + p.header.headerSize) ++
        List.replicate p.header.tupleSize 0 ++
        p.buf.drop (t.tupleIndex * p.header.tupleSize + p.header.headerSize +
          p.header.tupleSize) ∧
      p2.header.usedSlots = p.header.usedSlots ∧
      p2.header.usedSpace = p.header.usedSpace ∧
      p2.header.isDirty = true ∧
      p2.getTuple t = some (List.replicate p.header.tupleSize 0) ∧
      p2.iterate.length = p.iterate.length ∧
      (∀ q, p.deleteTuple t = .ok (some q) → t.tupleIndex ∉ q.header.usedSlots) := by
  have hslot : p.header.hasSlot t.tupleIndex = true := by
    simp only [SPHeader.hasSlot, List.contains]
    simp
    exact hocc
  have hmin : min (t.tupleIndex * p.header.tupleSize + p.header.headerSize +
        p.header.tupleSize) p.buf.length -
      min (t.tupleIndex * p.header.tupleSize + p.header.headerSize) p.buf.length =
      p.header.tupleSize := by omega
  have hclear : p.clearTuple t = .ok (some (SPage.setDirtyTrue
      { p with buf := p.buf.take (t.tupleIndex * p.header.tupleSize + p.header.headerSize) ++
          List.replicate p.header.tupleSize 0 ++
          p.buf.drop (t.tupleIndex * p.header.tupleSize + p.header.headerSize +
            p.header.tupleSize) })) := by
    unfold SPage.clearTuple
    dsimp only []
    rw [hslot]
    simp only [if_true]
    rw [if_pos (Or.inl hbound), hmin]
  refine ⟨_, hclear, rfl, rfl, rfl, setDirtyTrue_isDirty _, ?_, ?_, ?_⟩
  · unfold SPage.getTuple
    simp only [SPage.setDirtyTrue, SPHeader.setDirtyTrue]
    rw [show ({ p.header with flags := p.header.flags ||| dirtyMask } : SPHeader).hasSlot
        t.tupleIndex = p.header.hasSlot t.tupleIndex from rfl, hslot]
    simp only [if_true]
    congr 1
    have hx : (p.buf.take (t.tupleIndex * p.header.tupleSize + p.header.headerSize)).length
        = t.tupleIndex * p.header.tupleSize + p.header.headerSize := by
      simp only [List.length_take]
      omega
    have hy : (List.replicate p.header.tupleSize (0 : ℕ)).length =
        (t.tupleIndex * p.header.tupleSize + p.header.headerSize + p.header.tupleSize) -
        (t.tupleIndex * p.header.tupleSize + p.header.headerSize) := by
      simp only [List.length_replicate]
      omega
    exact readSlice_exact _ _ _ _ _ hx hy (by omega)
  · simp [SPage.iterate, SPage.setDirtyTrue, SPHeader.setDirtyTrue]
  · intro q hdel
    exact deleteTuple_removes p t q hdel

/-- Witness for C9 at the four-tuple scenario page, clearing slot 1. -/
theorem c9_clear_vs_delete_witness :
    ∃ p2, scenPage4.clearTuple { pageId := 7, tupleIndex := 1 } = .ok (some p2) ∧
      p2.buf = scenPage4.buf.take (1 * scenPage4.header.tupleSize +
          scenPage4.header.headerSize) ++
        List.replicate scenPage4.header.tupleSize 0 ++
        scenPage4.buf.drop (1 * scenPage4.header.tupleSize +
          scenPage4.header.headerSize + scenPage4.header.tupleSize) ∧
      p2.header.usedSlots = scenPage4.header.usedSlots ∧
      p2.header.usedSpace = scenPage4.header.usedSpace ∧
      p2.header.isDirty = true ∧
      p2.getTuple { pageId := 7, tupleIndex := 1 } =
        some (List.replicate scenPage4.header.tupleSize 0) ∧
      p2.iterate.length = scenPage4.iterate.length ∧
      (∀ q, scenPage4.deleteTuple { pageId := 7, tupleIndex := 1 } = .ok (some q) →
        (1 : ℕ) ∉ q.header.usedSlots) :=
  c9_clear_vs_delete scenPage4 { pageId := 7, tupleIndex := 1 } (by decide) (by decide)

/-- The bitmap of a replicated-zero buffer reads 0 everywhere. -/
theorem getD_replicate_zero (n i : ℕ) : (List.replicate n (0 : ℕ)).getD i 0 = 0 := by
  rw [List.getD_eq_getElem?_getD, List.getElem?_replicate]
  split <;> simp

/-- A freshly constructed header is well-formed. -/
theorem mkInitHeader_wf (bufLen : ℕ) (ts : ℤ) (flags : ℕ)
    (hlen : 0 < bufLen) (hts0 : 0 ≤ ts) (hts1 : ts ≤ 65535)
    (hlen1 : (bufLen : ℤ) ≤ 65535)
    (hns0 : 0 ≤ numSlotsInit bufLen ts) (hns1 : numSlotsInit bufLen ts ≤ 65535)
    (hfit : headerSizeOf (numSlotsInit bufLen ts).toNat ≤ bufLen)
    (hflags : flags ≤ 255) :
    HeaderWF (mkInitHeader bufLen ts flags) := by
  unfold HeaderWF OccupancyInv mkInitHeader
  dsimp only []
  refine ⟨⟨?_, ?_, ?_, ?_, ?_⟩, ?_, ?_, ?_, ?_, ?_, ?_, ?_, ?_, ?_, ?_, ?_, ?_⟩
  · intro i
    simp [mem_pyRange]
  · intro i
    simp
  · simp
  · exact pyRange_nodup 0 _
  · intro i hi
    rw [getD_replicate_zero]
    simp
  · simp
  · intro b hb
    rw [List.eq_of_mem_replicate hb]
    omega
  · intro x hx
    rcases Nat.eq_zero_or_pos (numSlotsInit bufLen ts).toNat with h0 | h0
    · rw [h0, pyRange_nil 0 0 le_rfl] at hx
      cases hx
    · rw [pyRange_cons 0 _ h0] at hx
      simp at hx
      omega
  · have : ((ts.toNat : ℤ)) = ts := Int.toNat_of_nonneg hts0
    rw [this]
  · have : ((ts.toNat : ℤ)) = ts := Int.toNat_of_nonneg hts0
    rw [this]
    exact hns0
  · have : ((ts.toNat : ℤ)) = ts := Int.toNat_of_nonneg hts0
    rw [this]
    exact hns1
  · omega
  · exact hlen
  · omega
  · exact hfit
  · exact hflags
  · omega

/-- Allocation preserves header well-formedness. -/
theorem wf_alloc (h h2 : SPHeader) (i : ℕ) (hwf : HeaderWF h)
    (halloc : h.nextFreeTuple = .ok (some (h2, i))) : HeaderWF h2 := by
  obtain ⟨hfree, hieq, hidx, ⟨r0, rest2, htail⟩, hrec⟩ := nextFreeTuple_ok_elim h h2 i halloc
  rcases hfs : h.freeSlots with _ | ⟨f0, rest⟩
  · rw [hfs] at htail
    cases htail
  · have hrest : rest = r0 :: rest2 := by
      rw [hfs] at htail
      simpa using htail
    obtain ⟨⟨hpart, hdisj, hndu, hndf, hbit⟩, hlen, hbits, hhead, hnseq, hns0, hns1,
      hts1, hpc0, hpc1, hhs, hfl, hnx⟩ := hwf
    have hnsf0 : h.nextSlot = f0 := hhead f0 (by rw [hfs]; rfl)
    have hf0free : f0 ∈ h.freeSlots := by rw [hfs]; exact List.mem_cons_self f0 rest
    have hndf' : (f0 :: rest).Nodup := by rw [← hfs]; exact hndf
    subst hrec
    unfold HeaderWF OccupancyInv
    dsimp only []
    refine ⟨⟨?_, ?_, ?_, ?_, ?_⟩, ?_, ?_, ?_, ?_, ?_, ?_, ?_, ?_, ?_, ?_, ?_, ?_⟩
    · intro j
      have hp := hpart j
      rw [hfs] at hp
      simp only [List.mem_cons] at hp
      simp only [List.mem_append, List.mem_singleton, hfs, hnsf0, List.tail_cons]
      tauto
    · intro j ⟨hju, hjf⟩
      rw [hfs] at hjf
      simp only [List.tail_cons] at hjf
      simp only [List.mem_append, List.mem_singleton, hnsf0] at hju
      rcases hju with hju | hju
      · exact hdisj j ⟨hju, by rw [hfs]; exact List.mem_cons_of_mem f0 hjf⟩
      · subst hju
        exact (List.nodup_cons.1 hndf').1 hjf
    · rw [List.nodup_append]
      refine ⟨hndu, by simp, ?_⟩
      intro x hxu hxs
      simp only [List.mem_singleton] at hxs
      subst hxs
      rw [hnsf0] at hxu
      exact hdisj f0 ⟨hxu, hf0free⟩
    · rw [hfs]
      simp only [List.tail_cons]
      exact hndf'.of_cons
    · intro j hj
      by_cases hjf : j = h.nextSlot
      · subst hjf
        rw [List.getD_eq_getElem?_getD, List.getElem?_set_self hidx]
        simp
      · rw [List.getD_eq_getElem?_getD, List.getElem?_set_ne (fun hc => hjf hc.symm),
          ← List.getD_eq_getElem?_getD]
        rw [hbit j hj]
        simp only [List.mem_append, List.mem_singleton]
        constructor
        · exact fun hm => Or.inl hm
        · rintro (hm | hm)
          · exact hm
          · exact absurd hm hjf
    · simp [hlen]
    · intro b hb
      rcases List.mem_or_eq_of_mem_set hb with hb2 | hb2
      · exact hbits b hb2
      · omega
    · intro x hx
      rw [hfs] at hx ⊢
      simp only [List.tail_cons, hrest] at hx ⊢
      simp at hx
      simp [hx]
    · exact hnseq
    · exact hns0
    · exact hns1
    · exact hts1
    · exact hpc0
    · exact hpc1
    · exact hhs
    · exact hfl
    · rw [hfs]
      simp only [List.tail_cons, hrest, List.headI]
      have hr0free : r0 ∈ h.freeSlots := by
        rw [hfs, hrest]
        exact List.mem_cons_of_mem f0 (List.mem_cons_self r0 rest2)
      have := (hpart r0).1 (Or.inr hr0free)
      omega

/-- `deleteTuple` preserves header well-formedness. -/
theorem wf_del (p : SPage) (t : TupleId) (q : SPage) (hwf : HeaderWF p.header)
    (hdel : p.deleteTuple t = .ok (some q)) : HeaderWF q.header := by
  obtain ⟨hslot, hidx, hnsl, hpid, hbuf, hflags, hts, hpc, hnsq, hsb, hused, hfree,
    ⟨f0, rest, hf, hnxt⟩⟩ := deleteTuple_ok_elim p t q hdel
  obtain ⟨⟨hpart, hdisj, hndu, hndf, hbit⟩, hlen, hbits, hhead, hnseq, hns0, hns1,
    hts1, hpc0, hpc1, hhs, hfl, hnx⟩ := hwf
  unfold HeaderWF OccupancyInv
  refine ⟨⟨?_, ?_, ?_, ?_, ?_⟩, ?_, ?_, ?_, ?_, ?_, ?_, ?_, ?_, ?_, ?_, ?_, ?_⟩
  · intro j
    rw [hused, hfree, hnsq]
    simp only [List.mem_filter, mem_pyRange, decide_eq_true_eq]
    by_cases hj : (p.header.slotBuffer.set t.tupleIndex 0).getD j 0 = 1 <;>
      constructor <;> intro hc <;> simp_all
  · intro j ⟨hju, hjf⟩
    rw [hused] at hju
    rw [hfree] at hjf
    simp only [List.mem_filter, decide_eq_true_eq] at hju hjf
    exact absurd hju.2 hjf.2
  · rw [hused]
    exact (pyRange_nodup 0 _).filter _
  · rw [hfree]
    exact (pyRange_nodup 0 _).filter _
  · intro j hj
    rw [hsb, hused, hnsq] at *
    simp only [List.mem_filter, mem_pyRange, decide_eq_true_eq]
    constructor
    · intro hc
      exact ⟨⟨Nat.zero_le j, hj⟩, hc⟩
    · exact fun hc => hc.2
  · rw [hsb, hnsq]
    simp [hlen]
  · intro b hb
    rw [hsb] at hb
    rcases List.mem_or_eq_of_mem_set hb with hb2 | hb2
    · exact hbits b hb2
    · omega
  · intro x hx
    rw [hf] at hx
    simp only [List.head?_cons, Option.some.injEq] at hx
    rw [hnxt, hx]
  · rw [hnsq, hts, hpc]
    exact hnseq
  · rw [hts, hpc]
    exact hns0
  · rw [hts, hpc]
    exact hns1
  · rw [hts]
    exact hts1
  · rw [hpc]
    exact hpc0
  · rw [hpc]
    exact hpc1
  · unfold SPHeader.headerSize
    rw [hnsq, hpc]
    exact hhs
  · rw [hflags]
    have : p.header.flags ||| dirtyMask < 256 :=
      Nat.or_lt_two_pow (n := 8) (by omega) (by norm_num [dirtyMask])
    omega
  · have hf0 : f0 ∈ q.header.freeSlots := by
      rw [hf]
      exact List.mem_cons_self f0 rest
    rw [hfree] at hf0
    simp only [List.mem_filter, mem_pyRange, decide_eq_true_eq] at hf0
    rw [hnxt]
    omega

/-- Dirty marking preserves header well-formedness. -/
theorem wf_dirty (h : SPHeader) (hwf : HeaderWF h) : HeaderWF h.setDirtyTrue := by
  obtain ⟨hocc, hlen, hbits, hhead, hnseq, hns0, hns1, hts1, hpc0, hpc1, hhs, hfl, hnx⟩ := hwf
  unfold HeaderWF
  refine ⟨hocc, hlen, hbits, hhead, hnseq, hns0, hns1, hts1, hpc0, hpc1, hhs, ?_, hnx⟩
  have : h.flags ||| dirtyMask < 256 :=
    Nat.or_lt_two_pow (n := 8) (by omega) (by norm_num [dirtyMask])
  simp only [SPHeader.setDirtyTrue]
  omega

/-- Every reachable header state is well-formed. -/
theorem reachableH_wf (h : SPHeader) (hr : ReachableH h) : HeaderWF h := by
  induction hr with
  | construct buf ts flags h buf2 hflags hok =>
    obtain ⟨h1, h2, h3, h4, h5, h6, h7, hh, -⟩ :=
      (initHeader_ok_iff buf ts flags h buf2).1 hok
    rw [hh]
    exact mkInitHeader_wf buf.length ts flags h1 h2 h3 h4 h5 h6 h7 hflags
  | alloc h h2 i _ halloc ih => exact wf_alloc h h2 i ih halloc
  | del p t q _ hdel ih => exact wf_del p t q ih hdel
  | dirty h _ ih => exact wf_dirty h ih

/-- C4 amended.  In every header state reachable through construction,
`nextFreeTuple`, `deleteTuple` (and `pack`, which does not mutate the
header, and dirty marking), `usedSlots` and `freeSlots` partition
`{0..numSlots-1}` with no overlap and no duplicates, and bitmap bit `i` is 1
exactly when `i ∈ usedSlots`.  `unpack` is excluded: it breaks the
invariant (see the counterexample). -/
theorem c4_partition_amended (h : SPHeader) (hr : ReachableH h) : OccupancyInv h :=
  (reachableH_wf h hr).1

/-- Witness for C4 at a freshly constructed header (32-byte buffer,
tupleSize 8). -/
theorem c4_partition_amended_witness :
    OccupancyInv (exOk (initHeader (List.replicate 32 0) 8 0)).1 :=
  c4_partition_amended (exOk (initHeader (List.replicate 32 0) 8 0)).1
    (ReachableH.construct (List.replicate 32 0) 8 0 _ (exOk (initHeader (List.replicate 32 0) 8 0)).2
      (by omega) (by decide))

/-- C4 counterexample.  The claim as stated includes `unpack` among the
reachable-state operations, and `unpack` violates the partition invariant:
unpacking the buffer of a freshly constructed header (32-byte page,
tupleSize 8, `pack` written in place by the constructor) yields a header
whose `freeSlots` list contains every index twice — the constructor's
pre-filled `freeSlots` is kept and the bitmap scan appends all indices
again. -/
theorem c4_partition_counterexample :
    initHeader (List.replicate 32 0) 8 0 =
      .ok ((exOk (initHeader (List.replicate 32 0) 8 0)).1, ce4buf) ∧
    SPHeader.unpack ce4buf = .ok ce4hx ∧
    ¬ ce4hx.freeSlots.Nodup ∧
    ¬ OccupancyInv ce4hx := by
  refine ⟨by decide, by decide, by decide, ?_⟩
  intro hinv
  exact absurd hinv.2.2.2.1 (by decide)

/-- Setting bit `k` of the first-`k` bitmap yields the first-`k+1` bitmap. -/
theorem bitmap_set_succ (ns k : ℕ) (hk : k < ns) :
    ((List.range ns).map (fun i => if i < k then (1 : ℕ) else 0)).set k 1 =
    (List.range ns).map (fun i => if i < k + 1 then (1 : ℕ) else 0) := by
  apply List.ext_getElem
  · simp
  · intro j h1 h2
    simp only [List.getElem_set, List.getElem_map, List.getElem_range]
    split_ifs <;> omega

/-- The fresh header equals the closed fill form at `k = 0`. -/
theorem fillHeader_zero (pc tsN : ℕ) :
    fillHeader pc tsN 0 = mkInitHeader pc (tsN : ℤ) 0 := by
  unfold fillHeader mkInitHeader fillNS
  have h1 : ((tsN : ℤ)).toNat = tsN := rfl
  rw [h1]
  have h2 : (List.range (numSlotsInit pc (tsN : ℤ)).toNat).map
      (fun i => if i < 0 then (1 : ℕ) else 0) =
      List.replicate (numSlotsInit pc (tsN : ℤ)).toNat 0 := by
    rw [show (fun i => if i < 0 then (1 : ℕ) else 0) = fun _ : ℕ => (0 : ℕ) from
      funext fun i => by simp]
    rw [List.map_const']
    simp
  rw [h2]
  rfl

/-- Length of the fill buffer (as long as the inserts stayed in bounds). -/
theorem fillBuf_length (pc tsN : ℕ) (ds : ℕ → List ℕ)
    (hfit : fillHS pc tsN ≤ pc) (hds : ∀ j, (ds j).length = tsN) :
    ∀ k, (∀ j, j < k → j * tsN + fillHS pc tsN + tsN ≤ pc) →
      (fillBuf pc tsN ds k).length = pc := by
  intro k
  induction k with
  | zero =>
    intro _
    unfold fillBuf
    rw [List.length_append, List.length_replicate, packHeader_length]
    have : SPHeader.headerSize (fillHeader pc tsN 0) = fillHS pc tsN := rfl
    rw [this]
    omega
  | succ k ih =>
    intro hj
    have hlen : (fillBuf pc tsN ds k).length = pc := ih fun j hjk => hj j (by omega)
    have hk : k * tsN + fillHS pc tsN + tsN ≤ pc := hj k (by omega)
    unfold fillBuf
    dsimp only []
    rw [List.length_append, List.length_append, List.length_take, List.length_drop,
      hlen, hds k]
    omega

/-- `hasFreeTuple` on the fill header counts inserts exactly. -/
theorem fillHeader_hasFree (pc tsN k : ℕ) (hts : 1 ≤ tsN) :
    (fillHeader pc tsN k).hasFreeTuple = true ↔
      (k + 1) * tsN + fillHS pc tsN ≤ pc := by
  unfold SPHeader.hasFreeTuple SPHeader.freeSpace fillHeader
  dsimp only []
  rw [decide_eq_true_iff]
  have hlen : (List.range k).length = k := List.length_range k
  rw [hlen]
  have hhs : headerSizeOf (fillNS pc tsN) = fillHS pc tsN := rfl
  unfold SPHeader.headerSize
  dsimp only []
  rw [hhs]
  constructor
  · intro hle
    have : ((k + 1) * tsN : ℤ) + (fillHS pc tsN : ℤ) ≤ (pc : ℤ) := by push_cast; nlinarith
    exact_mod_cast this
  · intro hle
    have : ((k + 1) * tsN + fillHS pc tsN : ℤ) ≤ (pc : ℤ) := by exact_mod_cast hle
    push_cast at this
    nlinarith

/-- One allocation step from the fill header. -/
theorem fill_alloc (pc tsN k : ℕ)
    (hfree : (fillHeader pc tsN k).hasFreeTuple = true)
    (hk1 : k + 1 < fillNS pc tsN) :
    (fillHeader pc tsN k).nextFreeTuple = .ok (some (fillMid pc tsN k, k)) := by
  unfold fillMid
  unfold SPHeader.nextFreeTuple
  rw [hfree]
  simp only [if_true]
  have hlen : (fillHeader pc tsN k).slotBuffer.length = fillNS pc tsN := by
    simp [fillHeader]
  have hnext : (fillHeader pc tsN k).nextSlot = k := rfl
  rw [if_pos (by rw [hnext, hlen]; omega)]
  have hfs : (fillHeader pc tsN k).freeSlots = k :: (k + 1) :: pyRange (k + 2) (fillNS pc tsN) := by
    show pyRange k (fillNS pc tsN) = _
    rw [pyRange_cons k _ (by omega), pyRange_cons (k + 1) _ (by omega)]
  rw [hfs]
  have hsb : ((List.range (fillNS pc tsN)).map (fun i => if i < k then (1 : ℕ) else 0)).set k 1 =
      (List.range (fillNS pc tsN)).map (fun i => if i < k + 1 then (1 : ℕ) else 0) :=
    bitmap_set_succ _ k (by omega)
  have hus : List.range k ++ [k] = List.range (k + 1) := (List.range_succ k).symm
  have hfr : (k + 1) :: pyRange (k + 2) (fillNS pc tsN) = pyRange (k + 1) (fillNS pc tsN) :=
    (pyRange_cons (k + 1) _ (by omega)).symm
  unfold fillHeader
  dsimp only []
  rw [hsb, hus, hfr]

/-- One full `insertTuple` step from the fill state. -/
theorem fill_step (pid pc tsN : ℕ) (ds : ℕ → List ℕ) (k : ℕ)
    (hts : 1 ≤ tsN)
    (hds : ∀ j, (ds j).length = tsN)
    (hfit : fillHS pc tsN ≤ pc)
    (hnsbig : pc ≤ 9 + fillNS pc tsN)
    (hk : (k + 1) * tsN + fillHS pc tsN ≤ pc) :
    (fillPage pid pc tsN ds k).insertTuple (ds k) =
      .ok (some (fillPage pid pc tsN ds (k + 1),
        { pageId := pid, tupleIndex := k })) := by
  have h10 : 10 ≤ fillHS pc tsN := by
    unfold fillHS headerSizeOf reprSize
    omega
  have hmul : k + 1 ≤ (k + 1) * tsN := by nlinarith
  have hfree : (fillHeader pc tsN k).hasFreeTuple = true :=
    (fillHeader_hasFree pc tsN k hts).2 hk
  have hbuflen : (fillBuf pc tsN ds k).length = pc := by
    apply fillBuf_length pc tsN ds hfit hds
    intro j hj
    have hjk : (j + 1) * tsN ≤ (k + 1) * tsN := Nat.mul_le_mul_right _ (by omega)
    nlinarith [hjk, hk]
  unfold SPage.insertTuple
  have hhd : (fillPage pid pc tsN ds k).header = fillHeader pc tsN k := rfl
  rw [hhd, hfree]
  simp only [if_true]
  rw [fill_alloc pc tsN k hfree (by omega)]
  dsimp only [fillMid, SPHeader.headerSize]
  have hstep : k * tsN + headerSizeOf (fillNS pc tsN) + tsN ≤ pc := by
    have h1 : (k + 1) * tsN = k * tsN + tsN := by ring
    have h2 : headerSizeOf (fillNS pc tsN) = fillHS pc tsN := rfl
    omega
  have hbuflen2 : (fillBuf pc tsN ds k).length = pc := hbuflen
  rw [show (fillPage pid pc tsN ds k).buf = fillBuf pc tsN ds k from rfl]
  rw [writeSlice_eq_ok (fillBuf pc tsN ds k) (ds k)
    (k * tsN + headerSizeOf (fillNS pc tsN))
    (k * tsN + headerSizeOf (fillNS pc tsN) + tsN)
    (by omega) (by omega) (by rw [hds k]; omega)]
  have hflag : ((if k = 0 then (0 : ℕ) else 1) ||| dirtyMask) = 1 := by
    by_cases h0 : k = 0 <;> simp [h0, dirtyMask]
  unfold fillPage SPage.setDirtyTrue SPHeader.setDirtyTrue fillHeader
  dsimp only []
  rw [hflag, if_neg (Nat.succ_ne_zero k)]
  have hbufeq : fillBuf pc tsN ds (k + 1) =
      (fillBuf pc tsN ds k).take (k * tsN + fillHS pc tsN) ++ ds k ++
      (fillBuf pc tsN ds k).drop (k * tsN + fillHS pc tsN + tsN) := rfl
  rw [hbufeq]
  rfl

/-- The insert chain stays on the closed fill states. -/
theorem fill_chain (pid pc tsN : ℕ) (ds : ℕ → List ℕ)
    (hts : 1 ≤ tsN) (hds : ∀ j, (ds j).length = tsN)
    (hfit : fillHS pc tsN ≤ pc) (hnsbig : pc ≤ 9 + fillNS pc tsN) :
    ∀ k, (∀ j, j < k → (j + 1) * tsN + fillHS pc tsN ≤ pc) →
      insertChain ds (fillPage pid pc tsN ds 0) k =
        .ok (some (fillPage pid pc tsN ds k)) := by
  intro k
  induction k with
  | zero => intro _; rfl
  | succ k ih =>
    intro hj
    unfold insertChain
    rw [ih fun j hjk => hj j (by omega)]
    dsimp only []
    rw [fill_step pid pc tsN ds k hts hds hfit hnsbig (hj k (by omega))]

/-- Inserting into the fill state past capacity returns the sentinel. -/
theorem fill_full (pid pc tsN : ℕ) (ds : ℕ → List ℕ) (k : ℕ) (hts : 1 ≤ tsN)
    (hfull : ¬ ((k + 1) * tsN + fillHS pc tsN ≤ pc)) :
    (fillPage pid pc tsN ds k).insertTuple (ds k) = .ok none := by
  cases hfb : (fillHeader pc tsN k).hasFreeTuple with
  | true => exact absurd ((fillHeader_hasFree pc tsN k hts).1 hfb) hfull
  | false =>
    unfold SPage.insertTuple
    rw [show (fillPage pid pc tsN ds k).header = fillHeader pc tsN k from rfl, hfb]
    rfl

/-- C5.  Into a freshly constructed empty page with positive `tupleSize`,
repeated `insertTuple` calls succeed (returning a tuple id) exactly
`floor(freeSpaceAtStart / tupleSize)` times, the next call returns the
`None` sentinel without raising, and `hasFreeTuple()` is true exactly
before each of the successful inserts and false from the last success on. -/
theorem c5_fill_to_capacity (pid pc tsN : ℕ) (ds : ℕ → List ℕ) (p0 : SPage)
    (hts : 1 ≤ tsN)
    (hds : ∀ j, (ds j).length = tsN)
    (hinit : initPage pid (List.replicate pc 0) (tsN : ℤ) = .ok p0) :
    ((pc - fillHS pc tsN) / tsN : ℕ) = (p0.header.freeSpace / (tsN : ℤ)).toNat ∧
    (∀ k, k < (pc - fillHS pc tsN) / tsN →
      ∃ q r i, insertChain ds p0 k = .ok (some q) ∧
        q.insertTuple (ds k) = .ok (some (r, i))) ∧
    (∃ q, insertChain ds p0 ((pc - fillHS pc tsN) / tsN) = .ok (some q) ∧
      q.insertTuple (ds ((pc - fillHS pc tsN) / tsN)) = .ok none) ∧
    (∀ k q, k ≤ (pc - fillHS pc tsN) / tsN →
      insertChain ds p0 k = .ok (some q) →
      (q.header.hasFreeTuple = true ↔ k < (pc - fillHS pc tsN) / tsN)) := by
  unfold initPage at hinit
  by_cases hpc0 : (List.replicate pc (0 : ℕ)).length = 0
  · rw [if_pos hpc0] at hinit
    cases hinit
  rw [if_neg hpc0] at hinit
  rcases hih : initHeader (List.replicate pc 0) (tsN : ℤ) 0 with e | ⟨h0, buf0⟩
  · rw [hih] at hinit
    cases hinit
  rw [hih] at hinit
  simp only [Except.ok.injEq] at hinit
  obtain ⟨hlen0, -, -, hpc1, hns0, hns1, hfit0, hh0, hbuf0⟩ :=
    (initHeader_ok_iff (List.replicate pc 0) (tsN : ℤ) 0 h0 buf0).1 hih
  simp only [List.length_replicate] at hlen0 hpc1 hfit0 hh0 hbuf0
  have hfit : fillHS pc tsN ≤ pc := hfit0
  have hnsbig : pc ≤ 9 + fillNS pc tsN := by
    have hlb := numSlotsInit_lb pc (tsN : ℤ) (by exact_mod_cast hts)
    unfold fillNS
    omega
  have hp0 : p0 = fillPage pid pc tsN ds 0 := by
    rw [← hinit]
    unfold fillPage fillBuf
    rw [hh0, hbuf0, fillHeader_zero]
    have hdr : (List.replicate pc (0 : ℕ)).drop
        (headerSizeOf (numSlotsInit pc (tsN : ℤ)).toNat) =
        List.replicate (pc - fillHS pc tsN) (0 : ℕ) := by
      rw [List.drop_replicate]
      rfl
    rw [hdr]
  subst hp0
  set N := (pc - fillHS pc tsN) / tsN with hN
  have hiff : ∀ k, (k + 1) * tsN + fillHS pc tsN ≤ pc ↔ k < N := by
    intro k
    rw [hN]
    constructor
    · intro hk
      have h1 : (k + 1) * tsN ≤ pc - fillHS pc tsN := by omega
      have h2 : k + 1 ≤ (pc - fillHS pc tsN) / tsN :=
        (Nat.le_div_iff_mul_le (by omega)).2 h1
      omega
    · intro hk
      have h2 : k + 1 ≤ (pc - fillHS pc tsN) / tsN := by omega
      have h1 : (k + 1) * tsN ≤ pc - fillHS pc tsN :=
        (Nat.le_div_iff_mul_le (by omega)).1 h2
      omega
  refine ⟨?_, ?_, ?_, ?_⟩
  · have hfs : (fillPage pid pc tsN ds 0).header.freeSpace =
        ((pc - fillHS pc tsN : ℕ) : ℤ) := by
      unfold fillPage fillHeader SPHeader.freeSpace SPHeader.headerSize
      dsimp only []
      simp only [List.length_range]
      push_cast
      have : headerSizeOf (fillNS pc tsN) = fillHS pc tsN := rfl
      rw [this]
      omega
    rw [hfs]
    have h1 : ((pc - fillHS pc tsN : ℕ) : ℤ) / ((tsN : ℕ) : ℤ) =
        (((pc - fillHS pc tsN) / tsN : ℕ) : ℤ) := (Int.ofNat_div _ _).symm
    rw [h1, Int.toNat_ofNat]
  · intro k hk
    refine ⟨fillPage pid pc tsN ds k, fillPage pid pc tsN ds (k + 1),
      { pageId := pid, tupleIndex := k }, ?_, ?_⟩
    · exact fill_chain pid pc tsN ds hts hds hfit hnsbig k
        fun j hj => (hiff j).2 (by omega)
    · exact fill_step pid pc tsN ds k hts hds hfit hnsbig ((hiff k).2 hk)
  · refine ⟨fillPage pid pc tsN ds N, ?_, ?_⟩
    · exact fill_chain pid pc tsN ds hts hds hfit hnsbig N
        fun j hj => (hiff j).2 (by omega)
    · exact fill_full pid pc tsN ds N hts (fun hc => by have := (hiff N).1 hc; omega)
  · intro k q hk hchain
    have hch := fill_chain pid pc tsN ds hts hds hfit hnsbig k
      (fun j hj => (hiff j).2 (by omega))
    rw [hchain] at hch
    simp only [Except.ok.injEq, Option.some.injEq] at hch
    rw [hch]
    show (fillHeader pc tsN k).hasFreeTuple = true ↔ k < N
    rw [fillHeader_hasFree pc tsN k hts]
    exact hiff k

/-- Witness for C5: the 64-byte, tupleSize-8 scenario page admits exactly
`(64 - 18)/8 = 5` inserts. -/
theorem c5_fill_to_capacity_witness :
    ((64 - fillHS 64 8) / 8 : ℕ) = (scenPage0.header.freeSpace / ((8 : ℕ) : ℤ)).toNat ∧
    (∀ k, k < (64 - fillHS 64 8) / 8 →
      ∃ q r i, insertChain scenDs scenPage0 k = .ok (some q) ∧
        q.insertTuple (scenDs k) = .ok (some (r, i))) ∧
    (∃ q, insertChain scenDs scenPage0 ((64 - fillHS 64 8) / 8) = .ok (some q) ∧
      q.insertTuple (scenDs ((64 - fillHS 64 8) / 8)) = .ok none) ∧
    (∀ k q, k ≤ (64 - fillHS 64 8) / 8 →
      insertChain scenDs scenPage0 k = .ok (some q) →
      (q.header.hasFreeTuple = true ↔ k < (64 - fillHS 64 8) / 8)) :=
  c5_fill_to_capacity 7 64 8 scenDs scenPage0 (by decide) (fun j => rfl) (by decide)

/-- The bitmap-reconstruction loop succeeds and preserves the slot-buffer
length whenever every byte read is in bounds and the target list is long
enough. -/
theorem bitmapLoop_ok (buffer : List ℕ) :
    ∀ (n : ℕ) (sb : List ℕ) (t : ℕ),
      (∀ i, i < n → i / 8 + 9 < buffer.length) → n ≤ sb.length →
      ∃ sb2 t2, (pyRange 0 n).foldlM (bitmapStep buffer) (sb, t) = .ok (sb2, t2) ∧
        sb2.length = sb.length := by
  intro n
  induction n with
  | zero =>
    intro sb t _ _
    exact ⟨sb, t, rfl, rfl⟩
  | succ n ih =>
    intro sb t hbuf hsb
    obtain ⟨sb2, t2, hfold, hlen⟩ := ih sb t (fun i hi => hbuf i (by omega)) (by omega)
    rw [pyRange_concat 0 n (Nat.zero_le n), List.foldlM_append, hfold]
    have hstep : ∃ sb3 t3, bitmapStep buffer (sb2, t2) n = .ok (sb3, t3) ∧
        sb3.length = sb2.length := by
      unfold bitmapStep
      by_cases h8 : n % 8 = 0
      · rw [if_pos h8, List.getElem?_eq_getElem (hbuf n (by omega))]
        dsimp only []
        rw [if_pos (by omega)]
        exact ⟨_, _, rfl, by simp⟩
      · rw [if_neg h8]
        dsimp only []
        rw [if_pos (by omega)]
        exact ⟨_, _, rfl, by simp⟩
    obtain ⟨sb3, t3, hstepeq, hlen3⟩ := hstep
    refine ⟨sb3, t3, ?_, by omega⟩
    show (Except.ok (sb2, t2) >>= fun x => List.foldlM (bitmapStep buffer) x [n]) =
      Except.ok (sb3, t3)
    rw [show (Except.ok (sb2, t2) >>= fun x => List.foldlM (bitmapStep buffer) x [n]) =
      List.foldlM (bitmapStep buffer) (sb2, t2) [n] from rfl]
    rw [List.foldlM_cons, hstepeq]
    rfl

/-- The ten fixed-prefix bytes of a packed header, read back. -/
theorem packHeader_getD (h : SPHeader) (rest : List ℕ) :
    (h.packHeader ++ rest).getD 0 0 = h.flags ∧
    (h.packHeader ++ rest).getD 2 0 = h.tupleSize % 256 ∧
    (h.packHeader ++ rest).getD 3 0 = h.tupleSize / 256 ∧
    (h.packHeader ++ rest).getD 6 0 = h.numSlots % 256 ∧
    (h.packHeader ++ rest).getD 7 0 = h.numSlots / 256 ∧
    (h.packHeader ++ rest).getD 8 0 = h.nextSlot % 256 ∧
    (h.packHeader ++ rest).getD 9 0 = h.nextSlot / 256 := by
  unfold SPHeader.packHeader
  rw [List.append_assoc]
  have hlen : (h.packScalars).length = 10 := rfl
  refine ⟨?_, ?_, ?_, ?_, ?_, ?_, ?_⟩ <;>
    rw [List.getD_append _ _ 0 _ (by rw [hlen]; omega)] <;> rfl

/-- C3 amended.  `pack()` emits only the `headerSize()` header image.  For
every reachable header, unpacking a buffer that starts with that image and
has length `pageCapacity` (e.g. the page buffer written by
`SlottedPage.pack`) succeeds and reproduces `flags`, `tupleSize`,
`pageCapacity`, `numSlots` and `nextSlot`.  The occupancy set is *not*
reproduced (the bitmap is read one byte early, shifting occupancy by 8
slots, and the constructor's `freeSlots` pre-fill is retained), and
unpacking the bare `pack()` bytes can raise `IndexError` — see the
counterexample. -/
theorem c3_roundtrip_amended (h : SPHeader) (rest : List ℕ)
    (hr : ReachableH h)
    (hlen : (h.packHeader ++ rest).length = h.pageCapacity) :
    ∃ h2, SPHeader.unpack (h.packHeader ++ rest) = .ok h2 ∧
      h2.flags = h.flags ∧ h2.tupleSize = h.tupleSize ∧
      h2.pageCapacity = h.pageCapacity ∧ h2.numSlots = h.numSlots ∧
      h2.nextSlot = h.nextSlot := by
  obtain ⟨-, -, -, -, hnseq, hns0, hns1, hts1, hpc0, hpc1, hhs, hfl, hnx⟩ :=
    reachableH_wf h hr
  obtain ⟨g0, g2, g3, g6, g7, g8, g9⟩ := packHeader_getD h rest
  have hplen : h.packHeader.length = h.headerSize := packHeader_length h
  have h10 : 10 ≤ h.headerSize := by
    unfold SPHeader.headerSize headerSizeOf reprSize
    omega
  have hBlen : (h.packHeader ++ rest).length = h.pageCapacity := hlen
  unfold SPHeader.unpack
  rw [if_neg (by rw [hBlen]; unfold reprSize; omega)]
  dsimp only []
  rw [g0, g2, g3, g6, g7, g8, g9, Nat.mod_add_div h.tupleSize 256,
    Nat.mod_add_div h.numSlots 256, Nat.mod_add_div h.nextSlot 256]
  have hinitok : initHeader (h.packHeader ++ rest) (h.tupleSize : ℤ) h.flags =
      .ok (mkInitHeader (h.packHeader ++ rest).length (h.tupleSize : ℤ) h.flags,
        (mkInitHeader (h.packHeader ++ rest).length (h.tupleSize : ℤ) h.flags).packHeader ++
          (h.packHeader ++ rest).drop
            (headerSizeOf (numSlotsInit (h.packHeader ++ rest).length (h.tupleSize : ℤ)).toNat)) := by
    apply (initHeader_ok_iff _ _ _ _ _).2
    rw [hBlen]
    refine ⟨hpc0, by omega, by exact_mod_cast hts1, by exact_mod_cast hpc1,
      hns0, hns1, ?_, rfl, rfl⟩
    rw [← hnseq]
    exact hhs
  rw [hinitok]
  dsimp only [mkInitHeader]
  obtain ⟨sb2, t2, hloopeq, hlen2⟩ :=
    bitmapLoop_ok (h.packHeader ++ rest) h.numSlots
      (List.replicate (numSlotsInit (h.packHeader ++ rest).length (h.tupleSize : ℤ)).toNat 0) 0
      (by
        intro i hi
        rw [hBlen]
        unfold SPHeader.headerSize headerSizeOf reprSize at hhs
        omega)
      (by rw [List.length_replicate, hBlen, ← hnseq])
  have hloopeq2 : bitmapLoop (h.packHeader ++ rest) h.numSlots
      (List.replicate (numSlotsInit (h.packHeader ++ rest).length (h.tupleSize : ℤ)).toNat 0) =
      .ok (sb2, t2) := hloopeq
  rw [hloopeq2]
  refine ⟨_, rfl, rfl, rfl, hBlen, rfl, rfl⟩

/-- C3 counterexample.  `ce3h1` is a reachable header (fresh 64-byte page
with tupleSize 16, then one allocation).  Unpacking the bytes produced by
its `pack()` does not reproduce the header: it raises `IndexError`, because
`pack()` emits only the 18 header bytes, and the constructor called inside
`unpack` re-derives a far smaller slot capacity from that short buffer than
the packed `numSlots` (63).  Even over the full page image, the occupancy
set is not reproduced: slot 0 was occupied but the unpacked header marks
slot 8 instead (the bitmap is read starting at byte offset 9, one byte
before where `pack()` wrote it). -/
theorem c3_roundtrip_counterexample :
    isOkE (initHeader (List.replicate 64 0) 16 0) = true ∧
    (exOk (initHeader (List.replicate 64 0) 16 0)).1 = ce3h0 ∧
    ce3h0.nextFreeTuple = .ok (some (ce3h1, 0)) ∧
    SPHeader.unpack ce3h1.packHeader =
      .error "IndexError: list assignment index out of range" ∧
    SPHeader.unpack (ce3h1.packHeader ++ List.replicate (64 - 18) 0) = .ok ce3hx ∧
    ce3h1.usedSlots = [0] ∧ ce3hx.usedSlots = [8] := by decide

/-- Witness for the amended C3 at the reachable header `ce3h1` with the
zero-padded full page image. -/
theorem c3_roundtrip_amended_witness :
    ∃ h2, SPHeader.unpack (ce3h1.packHeader ++ List.replicate (64 - 18) 0) = .ok h2 ∧
      h2.flags = ce3h1.flags ∧ h2.tupleSize = ce3h1.tupleSize ∧
      h2.pageCapacity = ce3h1.pageCapacity ∧ h2.numSlots = ce3h1.numSlots ∧
      h2.nextSlot = ce3h1.nextSlot :=
  c3_roundtrip_amended ce3h1 (List.replicate (64 - 18) 0)
    (ReachableH.alloc ce3h0 ce3h1 0
      (ReachableH.construct (List.replicate 64 0) 16 0 ce3h0
        (exOk (initHeader (List.replicate 64 0) 16 0)).2 (by omega) (by decide))
      (by decide))
    (by decide)
